import Mathlib

/-!
Verification of `greens_function.py`: EOM-CCSD Green's function drivers
(IP and EA sectors, frequency- and time-domain, MO and AO bases).

The shallow embedding below translates the source file definition by
definition.  Numpy arrays of amplitudes are modelled as total functions
out of `ℕ` (the shape `(nocc, nvir)` is passed explicitly, mirroring
`nocc, nvir = t1.shape`); flat sector vectors are `List ℂ`; `einsum`
contractions are finite sums over `Finset.range`.  External collaborators
(pyscf's EOM matvec, the gminres/scipy linear solvers, the scipy ODE
integrator) are black boxes and enter as function parameters, exactly as
the spec's section 6 declares them to be external interfaces.
-/

/-- Flat sector vector (a 1-D numpy array of complex numbers). -/
abbrev Vec := List ℂ

/-- 3-D Green's function tensor, indexed `[axis0][axis1][frequency-or-time]`. -/
abbrev Tensor3 := List (List (List ℂ))

/-- Elementwise sum of two numpy arrays. -/
def arrAdd (a b : Vec) : Vec := List.zipWith (· + ·) a b

/-- Scalar times a numpy array. -/
def arrSMul (c : ℂ) (v : Vec) : Vec := v.map (fun z => c * z)

/-- Model of `np.dot` on two 1-D complex arrays (bilinear, no conjugation). -/
def arrDot (a b : Vec) : ℂ := (List.zipWith (· * ·) a b).sum

/-- Model of `greens_b_amplitudes_ea_rhf(t1, t2, p)` (source lines 14-23).
`nocc, nvir = t1.shape`; the dtype is kept generic, mirroring
`ds_type = t1.dtype`.  Rank-1 block has shape `(nvir,)`, rank-3 block
`(nocc, nvir, nvir)`. -/
def greens_b_amplitudes_ea_rhf {R : Type} [CommRing R] (nocc nvir : ℕ)
    (t1 : ℕ → ℕ → R) (t2 : ℕ → ℕ → ℕ → ℕ → R) (p : ℕ) :
    (ℕ → R) × (ℕ → ℕ → ℕ → R) :=
  if p < nocc then
    (fun a => -t1 p a, fun k a b => -t2 p k a b)
  else
    let vector1 : ℕ → R := Function.update (fun _ => 0) (p - nocc) 1
    let vector2 : ℕ → ℕ → ℕ → R := fun _ _ _ => 0
    (vector1, vector2)

/-- Model of `greens_e_amplitudes_ea_rhf(t1, t2, l1, l2, p)` (source lines
30-48).  The successive `let`s mirror the successive in-place updates of
`vector1`/`vector2`; slice assignments become `if`-guards on the sliced
index and each `np.einsum` becomes the corresponding finite sum. -/
def greens_e_amplitudes_ea_rhf {R : Type} [CommRing R] (nocc nvir : ℕ)
    (t1 : ℕ → ℕ → R) (t2 : ℕ → ℕ → ℕ → ℕ → R)
    (l1 : ℕ → ℕ → R) (l2 : ℕ → ℕ → ℕ → ℕ → R) (p : ℕ) :
    (ℕ → R) × (ℕ → ℕ → ℕ → R) :=
  if p < nocc then
    (fun a => l1 p a, fun k a b => 2 * l2 p k a b - l2 k p a b)
  else
    let v1a : ℕ → R := Function.update (fun _ => 0) (p - nocc) (-1)
    let v1b : ℕ → R := fun a =>
      v1a a + ∑ i ∈ Finset.range nocc, l1 i a * t1 i (p - nocc)
    let v1c : ℕ → R := fun a =>
      v1b a + 2 * ∑ k ∈ Finset.range nocc, ∑ l ∈ Finset.range nocc,
        ∑ c ∈ Finset.range nvir, l2 k l c a * t2 k l c (p - nocc)
    let vector1 : ℕ → R := fun a =>
      v1c a - ∑ k ∈ Finset.range nocc, ∑ l ∈ Finset.range nocc,
        ∑ c ∈ Finset.range nvir, l2 k l c a * t2 l k c (p - nocc)
    let v2a : ℕ → ℕ → ℕ → R := fun j a b =>
      (0 : R) + (if a = p - nocc then -2 * l1 j b else 0)
    let v2b : ℕ → ℕ → ℕ → R := fun j a b =>
      v2a j a b + (if b = p - nocc then l1 j a else 0)
    let v2c : ℕ → ℕ → ℕ → R := fun j a b =>
      v2b j a b + 2 * ∑ k ∈ Finset.range nocc, t1 k (p - nocc) * l2 j k b a
    let vector2 : ℕ → ℕ → ℕ → R := fun j a b =>
      v2c j a b - ∑ k ∈ Finset.range nocc, t1 k (p - nocc) * l2 j k a b
    (vector1, vector2)

/-- Model of `greens_b_amplitudes_ip_rhf(t1, t2, p)` (source lines 60-69).
Rank-1 block has shape `(nocc,)`, rank-3 block `(nocc, nocc, nvir)`. -/
def greens_b_amplitudes_ip_rhf {R : Type} [CommRing R] (nocc nvir : ℕ)
    (t1 : ℕ → ℕ → R) (t2 : ℕ → ℕ → ℕ → ℕ → R) (p : ℕ) :
    (ℕ → R) × (ℕ → ℕ → ℕ → R) :=
  if p < nocc then
    let vector1 : ℕ → R := Function.update (fun _ => 0) p 1
    let vector2 : ℕ → ℕ → ℕ → R := fun _ _ _ => 0
    (vector1, vector2)
  else
    (fun i => t1 i (p - nocc), fun i j a => t2 i j a (p - nocc))

/-- Model of `greens_e_amplitudes_ip_rhf(t1, t2, l1, l2, p)` (source lines
76-94), with the same conventions as the EA bra builder. -/
def greens_e_amplitudes_ip_rhf {R : Type} [CommRing R] (nocc nvir : ℕ)
    (t1 : ℕ → ℕ → R) (t2 : ℕ → ℕ → ℕ → ℕ → R)
    (l1 : ℕ → ℕ → R) (l2 : ℕ → ℕ → ℕ → ℕ → R) (p : ℕ) :
    (ℕ → R) × (ℕ → ℕ → ℕ → R) :=
  if p < nocc then
    let v1a : ℕ → R := Function.update (fun _ => 0) p (-1)
    let v1b : ℕ → R := fun i =>
      v1a i + ∑ a ∈ Finset.range nvir, l1 i a * t1 p a
    let v1c : ℕ → R := fun i =>
      v1b i + 2 * ∑ l ∈ Finset.range nocc, ∑ c ∈ Finset.range nvir,
        ∑ d ∈ Finset.range nvir, l2 i l c d * t2 p l c d
    let vector1 : ℕ → R := fun i =>
      v1c i - ∑ l ∈ Finset.range nocc, ∑ c ∈ Finset.range nvir,
        ∑ d ∈ Finset.range nvir, l2 i l c d * t2 p l d c
    let v2a : ℕ → ℕ → ℕ → R := fun i j b =>
      (0 : R) + (if i = p then -2 * l1 j b else 0)
    let v2b : ℕ → ℕ → ℕ → R := fun i j b =>
      v2a i j b + (if j = p then l1 i b else 0)
    let v2c : ℕ → ℕ → ℕ → R := fun i j b =>
      v2b i j b + 2 * ∑ c ∈ Finset.range nvir, t1 p c * l2 i j c b
    let vector2 : ℕ → ℕ → ℕ → R := fun i j b =>
      v2c i j b - ∑ c ∈ Finset.range nvir, t1 p c * l2 j i c b
    (vector1, vector2)
  else
    (fun i => -l1 i (p - nocc),
     fun i j b => -2 * l2 i j (p - nocc) b + l2 i j b (p - nocc))

/-- Model of the external pyscf packing routine `amplitudes_to_vector_ip`
(spec section 4.2: the toolkit's canonical bijective flattening):
`np.hstack((r1, r2.ravel()))` in row-major order, giving a flat vector of
length `nocc + nocc*nocc*nvir`. -/
def amplitudes_to_vector_ip (nocc nvir : ℕ)
    (r1 : ℕ → ℂ) (r2 : ℕ → ℕ → ℕ → ℂ) : Vec :=
  (List.range nocc).map r1 ++
    ((List.range nocc).map (fun i =>
      ((List.range nocc).map (fun j =>
        (List.range nvir).map (fun a => r2 i j a))).flatten)).flatten

/-- Model of the external pyscf packing routine `amplitudes_to_vector_ea`:
flat vector of length `nvir + nocc*nvir*nvir`. -/
def amplitudes_to_vector_ea (nocc nvir : ℕ)
    (r1 : ℕ → ℂ) (r2 : ℕ → ℕ → ℕ → ℂ) : Vec :=
  (List.range nvir).map r1 ++
    ((List.range nocc).map (fun k =>
      ((List.range nvir).map (fun a =>
        (List.range nvir).map (fun b => r2 k a b))).flatten)).flatten

/-- The coupled-cluster state consumed by the drivers: the four amplitude
tensors `t1, t2, l1, l2` of the external CC solver object (read-only),
together with their shape `(nocc, nvir)`. -/
structure CCData where
  nocc : ℕ
  nvir : ℕ
  t1 : ℕ → ℕ → ℂ
  t2 : ℕ → ℕ → ℕ → ℕ → ℂ
  l1 : ℕ → ℕ → ℂ
  l2 : ℕ → ℕ → ℕ → ℕ → ℂ

/-- `greens_b_vector_ea_rhf(cc, p)` (source line 26). -/
def greens_b_vector_ea_rhf (cc : CCData) (p : ℕ) : Vec :=
  amplitudes_to_vector_ea cc.nocc cc.nvir
    (greens_b_amplitudes_ea_rhf cc.nocc cc.nvir cc.t1 cc.t2 p).1
    (greens_b_amplitudes_ea_rhf cc.nocc cc.nvir cc.t1 cc.t2 p).2

/-- `greens_e_vector_ea_rhf(cc, p)` (source line 51). -/
def greens_e_vector_ea_rhf (cc : CCData) (p : ℕ) : Vec :=
  amplitudes_to_vector_ea cc.nocc cc.nvir
    (greens_e_amplitudes_ea_rhf cc.nocc cc.nvir cc.t1 cc.t2 cc.l1 cc.l2 p).1
    (greens_e_amplitudes_ea_rhf cc.nocc cc.nvir cc.t1 cc.t2 cc.l1 cc.l2 p).2

/-- `greens_b_vector_ip_rhf(cc, p)` (source line 72). -/
def greens_b_vector_ip_rhf (cc : CCData) (p : ℕ) : Vec :=
  amplitudes_to_vector_ip cc.nocc cc.nvir
    (greens_b_amplitudes_ip_rhf cc.nocc cc.nvir cc.t1 cc.t2 p).1
    (greens_b_amplitudes_ip_rhf cc.nocc cc.nvir cc.t1 cc.t2 p).2

/-- `greens_e_vector_ip_rhf(cc, p)` (source line 97). -/
def greens_e_vector_ip_rhf (cc : CCData) (p : ℕ) : Vec :=
  amplitudes_to_vector_ip cc.nocc cc.nvir
    (greens_e_amplitudes_ip_rhf cc.nocc cc.nvir cc.t1 cc.t2 cc.l1 cc.l2 p).1
    (greens_e_amplitudes_ip_rhf cc.nocc cc.nvir cc.t1 cc.t2 cc.l1 cc.l2 p).2

/-- `greens_func_multiply(ham, vector, linear_part)` (source lines 101-102):
`ham(vector) + linear_part * vector`. -/
def greens_func_multiply (ham : Vec → Vec) (vector : Vec)
    (linear_part : ℂ) : Vec :=
  arrAdd (ham vector) (arrSMul linear_part vector)

/-- `initial_ip_guess(cc)` (source lines 105-109): complex zero blocks
packed into a flat IP vector. -/
def initial_ip_guess (cc : CCData) : Vec :=
  amplitudes_to_vector_ip cc.nocc cc.nvir (fun _ => 0) (fun _ _ _ => 0)

/-- `initial_ea_guess(cc)` (source lines 112-116). -/
def initial_ea_guess (cc : CCData) : Vec :=
  amplitudes_to_vector_ea cc.nocc cc.nvir (fun _ => 0) (fun _ _ _ => 0)

/-- `ip_shape(cc)` (source lines 119-121). -/
def ip_shape (cc : CCData) : ℕ :=
  cc.nocc + cc.nocc * cc.nocc * cc.nvir

/-- `ea_shape(cc)` (source lines 124-126). -/
def ea_shape (cc : CCData) : ℕ :=
  cc.nvir + cc.nocc * cc.nvir * cc.nvir

/-- Interface of the linear solver used by the frequency-domain drivers:
`self.__solve_linear_problem__(matr_multiply, b_vector, x0, p0)` returning
the solution vector (spec section 6; its failure dispatch is modelled
separately by `greens_function.solve_linear_problem` below — in the source
a failure raises and aborts the whole computation). -/
abbrev LinSolver := (Vec → Vec) → Vec → Vec → Vec → Vec

/-- Interface of `scipy.integrate.solve_ivp(rhs, (ti, tf), y0, t_eval=times,
rtol=tol, atol=tol)`: the result is the list of sampled states `solp.y`
column by column, one per entry of `times`. -/
abbrev OdeSolver := (ℝ → Vec → Vec) → ℝ × ℝ → Vec → List ℝ → ℝ → List Vec

/-- The closure `matr_multiply` built in `solve_ip`/`solve_ip_ao` for the
current frequency (source lines 365-366 and 422-423):
`greens_func_multiply(eomip.matvec, vector, curr_omega - 1j*broadening)`. -/
def ipMatrMultiply (matvec : Vec → Vec) (broadening : ℝ)
    (curr_omega : ℂ) : Vec → Vec :=
  fun vector =>
    greens_func_multiply matvec vector (curr_omega - Complex.I * broadening)

/-- The closure `matr_multiply` built in `solve_ea`/`solve_ea_ao` for the
current frequency (source lines 398-399 and 448-449):
`greens_func_multiply(eomea.matvec, vector, -curr_omega - 1j*broadening)`. -/
def eaMatrMultiply (matvec : Vec → Vec) (broadening : ℝ)
    (curr_omega : ℂ) : Vec → Vec :=
  fun vector =>
    greens_func_multiply matvec vector (-curr_omega - Complex.I * broadening)

/-- The inner frequency loop of the frequency-domain drivers: for each
`curr_omega` in the list, solve the shifted linear system from the current
guess `x0`, then carry the solution forward as the next guess
(`x0 = sol`, source lines 419-426).  Returns the list of solutions in
frequency order together with the final carried guess. -/
def freqSweep (solver : LinSolver) (matr : ℂ → Vec → Vec)
    (b_vector p0 : Vec) : List ℂ → Vec → List Vec × Vec
  | [], x0 => ([], x0)
  | curr_omega :: rest, x0 =>
    let sol := solver (matr curr_omega) b_vector x0 p0
    let next := freqSweep solver matr b_vector p0 rest sol
    (sol :: next.1, next.2)

/-- The outer ket loop of the frequency-domain drivers: for each ket index
`p`, rebuild `b_vector` and run the frequency sweep, letting the carried
guess `x0` flow from the last frequency of one ket index into the first
frequency of the next (the source never resets `x0` between kets). -/
def ketSweep (solver : LinSolver) (matr : ℂ → Vec → Vec)
    (bVec : ℕ → Vec) (p0 : Vec) (omega_list : List ℂ) :
    List ℕ → Vec → List (List Vec) × Vec
  | [], x0 => ([], x0)
  | p :: rest, x0 =>
    let s := freqSweep solver matr (bVec p) p0 omega_list x0
    let next := ketSweep solver matr bVec p0 omega_list rest s.2
    (s.1 :: next.1, next.2)

/-- The solutions computed by `greens_function.solve_ip` (source lines
408-426): `x0 = initial_ip_guess(cc)`, `p0 = 0.0*x0 + 1.0`, then the
double loop over `ps` (outer, rebuilding `b_vector`) and `omega_list`
(inner).  Entry `[ip][iomega]` is the response vector solved for ket
orbital `ps[ip]` at frequency `omega_list[iomega]`. -/
def solveIpSols (solver : LinSolver) (matvec : Vec → Vec) (cc : CCData)
    (ps : List ℕ) (omega_list : List ℂ) (broadening : ℝ) :
    List (List Vec) :=
  let x0 := initial_ip_guess cc
  let p0 := x0.map (fun z => 0 * z + 1)
  (ketSweep solver (ipMatrMultiply matvec broadening)
    (greens_b_vector_ip_rhf cc) p0 omega_list ps x0).1

/-- The tensor `gfvals` filled by `greens_function.solve_ip` (source lines
416-428): `gfvals[ip, iq, iomega] = -np.dot(e_vector[iq], sol)` with
`e_vector` built from `qs` before the loops.  Each entry depends only on
the solution for its `(ip, iomega)` pair, so the tensor is assembled from
the list of solutions. -/
def solveIpTensor (solver : LinSolver) (matvec : Vec → Vec) (cc : CCData)
    (ps qs : List ℕ) (omega_list : List ℂ) (broadening : ℝ) : Tensor3 :=
  let e_vector := qs.map (greens_e_vector_ip_rhf cc)
  (solveIpSols solver matvec cc ps omega_list broadening).map
    (fun row => e_vector.map (fun e => row.map (fun sol => -arrDot e sol)))

/-- The solutions computed by `greens_function.solve_ea` (source lines
434-452): same structure as the IP case, but the outer loop runs over `qs`
and the shift is `-curr_omega - 1j*broadening`. -/
def solveEaSols (solver : LinSolver) (matvec : Vec → Vec) (cc : CCData)
    (qs : List ℕ) (omega_list : List ℂ) (broadening : ℝ) :
    List (List Vec) :=
  let x0 := initial_ea_guess cc
  let p0 := x0.map (fun z => 0 * z + 1)
  (ketSweep solver (eaMatrMultiply matvec broadening)
    (greens_b_vector_ea_rhf cc) p0 omega_list qs x0).1

/-- The tensor `gfvals` filled by `greens_function.solve_ea` (source lines
442-454): `gfvals[ip, iq, iomega] = np.dot(e_vector[ip], sol)` with
`e_vector` built from `ps` and `sol` solved for ket orbital `qs[iq]` —
here the first axis carries the `e`-vector (bra) index. -/
def solveEaTensor (solver : LinSolver) (matvec : Vec → Vec) (cc : CCData)
    (ps qs : List ℕ) (omega_list : List ℂ) (broadening : ℝ) : Tensor3 :=
  let e_vector := ps.map (greens_e_vector_ea_rhf cc)
  e_vector.map (fun e =>
    (solveEaSols solver matvec cc qs omega_list broadening).map
      (fun row => row.map (fun sol => arrDot e sol)))

/-- The AO-basis row/column `np.einsum("pi,ix->px", mo_coeff[ps,:], v_mo)`
for one requested orbital `orb`: component `x` is
`sum_i mo_coeff[orb, i] * v_mo[i][x]`, with `i` running over the `nmo`
molecular orbitals and `x` over the flat sector vector of length `len`. -/
def aoVec (nmo len : ℕ) (mo_coeff : ℕ → ℕ → ℂ) (orb : ℕ)
    (vecs : ℕ → Vec) : Vec :=
  (List.range len).map (fun x =>
    ((List.range nmo).map (fun i => mo_coeff orb i * (vecs i).getD x 0)).sum)

/-- The solutions computed by `greens_function.solve_ip_ao` (source lines
341-369).  The source selects the ket column as `b_vector_ao[:, p]` with
`p` the orbital VALUE from `ps` (not its position), i.e. the column built
for orbital `ps[p]`; this is reproduced faithfully via `ps.getD p 0`. -/
def solveIpAoSols (solver : LinSolver) (matvec : Vec → Vec) (cc : CCData)
    (ps : List ℕ) (omega_list : List ℂ) (mo_coeff : ℕ → ℕ → ℂ)
    (nmo : ℕ) (broadening : ℝ) : List (List Vec) :=
  let x0 := initial_ip_guess cc
  let p0 := x0.map (fun z => 0 * z + 1)
  let bColumn : ℕ → Vec := fun p =>
    aoVec nmo (ip_shape cc) mo_coeff (ps.getD p 0) (greens_b_vector_ip_rhf cc)
  (ketSweep solver (ipMatrMultiply matvec broadening)
    bColumn p0 omega_list ps x0).1

/-- The tensor `gf_ao` filled by `greens_function.solve_ip_ao` (source
lines 359-372): `gf_ao[ip, iq, iomega] = -np.dot(e_vector_ao[iq,:], sol)`,
both axes running over positions in `ps`. -/
def solveIpAoTensor (solver : LinSolver) (matvec : Vec → Vec) (cc : CCData)
    (ps : List ℕ) (omega_list : List ℂ) (mo_coeff : ℕ → ℕ → ℂ)
    (nmo : ℕ) (broadening : ℝ) : Tensor3 :=
  let eRow : ℕ → Vec := fun a =>
    aoVec nmo (ip_shape cc) mo_coeff (ps.getD a 0) (greens_e_vector_ip_rhf cc)
  let e_vector_ao := (List.range ps.length).map eRow
  (solveIpAoSols solver matvec cc ps omega_list mo_coeff nmo broadening).map
    (fun row => e_vector_ao.map (fun e => row.map (fun sol => -arrDot e sol)))

/-- The solutions computed by `greens_function.solve_ea_ao` (source lines
374-402), with the same orbital-value column selection as the IP case. -/
def solveEaAoSols (solver : LinSolver) (matvec : Vec → Vec) (cc : CCData)
    (ps : List ℕ) (omega_list : List ℂ) (mo_coeff : ℕ → ℕ → ℂ)
    (nmo : ℕ) (broadening : ℝ) : List (List Vec) :=
  let x0 := initial_ea_guess cc
  let p0 := x0.map (fun z => 0 * z + 1)
  let bColumn : ℕ → Vec := fun q =>
    aoVec nmo (ea_shape cc) mo_coeff (ps.getD q 0) (greens_b_vector_ea_rhf cc)
  (ketSweep solver (eaMatrMultiply matvec broadening)
    bColumn p0 omega_list ps x0).1

/-- The tensor `gf_ao` filled by `greens_function.solve_ea_ao` (source
lines 392-406): `gf_ao[ip, iq, iomega] = np.dot(e_vector_ao[ip], sol)` —
first axis carries the `e`-vector (bra) index, second the solved ket. -/
def solveEaAoTensor (solver : LinSolver) (matvec : Vec → Vec) (cc : CCData)
    (ps : List ℕ) (omega_list : List ℂ) (mo_coeff : ℕ → ℕ → ℂ)
    (nmo : ℕ) (broadening : ℝ) : Tensor3 :=
  let eRow : ℕ → Vec := fun a =>
    aoVec nmo (ea_shape cc) mo_coeff (ps.getD a 0) (greens_e_vector_ea_rhf cc)
  let e_vector_ao := (List.range ps.length).map eRow
  e_vector_ao.map (fun e =>
    (solveEaAoSols solver matvec cc ps omega_list mo_coeff nmo broadening).map
      (fun row => row.map (fun sol => arrDot e sol)))

/-- The time-propagation right-hand side `matr_multiply(t, vector)` built
inside the td drivers (source lines 181-183, 232-234, 285-288, 329-332):
`tfac * eom.matvec(vector)`; `t` is a dummy argument, the operator is
time-independent. -/
def tdMatrMultiply (tfac : ℂ) (matvec : Vec → Vec) : ℝ → Vec → Vec :=
  fun _t vector => arrSMul tfac (matvec vector)

/-- The tensor `gfvals` filled by `greens_function.td_ip` (source lines
271-296) for a given propagation factor `tfac`:
`gfvals[iq, ip, :] = np.dot(e_vector[iq], solp.y)` where `solp` integrates
the ODE from `times[0]` to `times[-1]` starting at the ket b-vector of
`ps[ip]`, sampling at `times`. -/
def tdIpTensor (ode : OdeSolver) (matvec : Vec → Vec) (cc : CCData)
    (ps qs : List ℕ) (times : List ℝ) (tol : ℝ) (tfac : ℂ) : Tensor3 :=
  let ti := times.headD 0
  let tf := times.getLastD 0
  let e_vector := qs.map (greens_e_vector_ip_rhf cc)
  let sols := ps.map (fun p =>
    ode (tdMatrMultiply tfac matvec) (ti, tf)
      (greens_b_vector_ip_rhf cc p) times tol)
  e_vector.map (fun e => sols.map (fun row => row.map (fun s => arrDot e s)))

/-- The tensor `gfvals` filled by `greens_function.td_ea` (source lines
316-339): `gfvals[ip, iq, :] = np.dot(e_vector[ip], solq.y)`, with
`e_vector` built from `ps` and the ODE solved from the b-vector of each
`q` in `qs`. -/
def tdEaTensor (ode : OdeSolver) (matvec : Vec → Vec) (cc : CCData)
    (ps qs : List ℕ) (times : List ℝ) (tol : ℝ) (tfac : ℂ) : Tensor3 :=
  let ti := times.headD 0
  let tf := times.getLastD 0
  let e_vector := ps.map (greens_e_vector_ea_rhf cc)
  let sols := qs.map (fun q =>
    ode (tdMatrMultiply tfac matvec) (ti, tf)
      (greens_b_vector_ea_rhf cc q) times tol)
  e_vector.map (fun e => sols.map (fun row => row.map (fun s => arrDot e s)))

/-- The tensor `gf_ao` filled by `greens_function.td_ip_ao` (source lines
162-193): AO-transformed bra/ket vectors, ODE propagation of the column
`b_vector_ao[:, p]` (the source indexes the column by the orbital VALUE
`p` from `ps`, reproduced via `ps.getD p 0`), and
`gf_ao[iq, ip, :] = np.dot(e_vector_ao[iq], solp.y)`. -/
def tdIpAoTensor (ode : OdeSolver) (matvec : Vec → Vec) (cc : CCData)
    (ps : List ℕ) (times : List ℝ) (mo_coeff : ℕ → ℕ → ℂ) (nmo : ℕ)
    (tol : ℝ) (tfac : ℂ) : Tensor3 :=
  let ti := times.headD 0
  let tf := times.getLastD 0
  let eRow : ℕ → Vec := fun a =>
    aoVec nmo (ip_shape cc) mo_coeff (ps.getD a 0) (greens_e_vector_ip_rhf cc)
  let e_vector_ao := (List.range ps.length).map eRow
  let bColumn : ℕ → Vec := fun p =>
    aoVec nmo (ip_shape cc) mo_coeff (ps.getD p 0) (greens_b_vector_ip_rhf cc)
  let sols := ps.map (fun p =>
    ode (tdMatrMultiply tfac matvec) (ti, tf) (bColumn p) times tol)
  e_vector_ao.map (fun e =>
    sols.map (fun row => row.map (fun s => arrDot e s)))

/-- The tensor `gf_ao` filled by `greens_function.td_ea_ao` (source lines
213-244), identical in structure to `tdIpAoTensor` but in the EA sector. -/
def tdEaAoTensor (ode : OdeSolver) (matvec : Vec → Vec) (cc : CCData)
    (ps : List ℕ) (times : List ℝ) (mo_coeff : ℕ → ℕ → ℂ) (nmo : ℕ)
    (tol : ℝ) (tfac : ℂ) : Tensor3 :=
  let ti := times.headD 0
  let tf := times.getLastD 0
  let eRow : ℕ → Vec := fun a =>
    aoVec nmo (ea_shape cc) mo_coeff (ps.getD a 0) (greens_e_vector_ea_rhf cc)
  let e_vector_ao := (List.range ps.length).map eRow
  let bColumn : ℕ → Vec := fun p =>
    aoVec nmo (ea_shape cc) mo_coeff (ps.getD p 0) (greens_b_vector_ea_rhf cc)
  let sols := ps.map (fun p =>
    ode (tdMatrMultiply tfac matvec) (ti, tf) (bColumn p) times tol)
  e_vector_ao.map (fun e =>
    sols.map (fun row => row.map (fun s => arrDot e s)))

/-- Numpy dtype with which an output array is allocated. -/
inductive NPDtype where
  | float64 : NPDtype
  | complex128 : NPDtype
deriving DecidableEq

/-- Return value of `solve_ip`/`solve_ea`: either the collapsed 1-D array
over frequencies (`gfvals[0, 0, :]`) or the full 3-D tensor. -/
inductive GFRet where
  | one : List ℂ → GFRet
  | three : Tensor3 → GFRet

/-- The `greens_function` class (source lines 129-131).  Its only instance
attribute is `verbose`; the methods below thread the object explicitly
and return it alongside their result, which makes it visible that none of
them mutates it. -/
structure greens_function where
  verbose : ℤ

/-- Method `greens_function.solve_ip` (source lines 408-432), including
the shape collapse `gfvals[0, 0, :]` when `len(ps) == 1 and
len(qs) == 1`. -/
def greens_function.solve_ip (self : greens_function) (solver : LinSolver)
    (matvec : Vec → Vec) (cc : CCData) (ps qs : List ℕ)
    (omega_list : List ℂ) (broadening : ℝ) : greens_function × GFRet :=
  (self,
    let gfvals := solveIpTensor solver matvec cc ps qs omega_list broadening
    if ps.length = 1 ∧ qs.length = 1 then
      GFRet.one ((gfvals.getD 0 []).getD 0 [])
    else
      GFRet.three gfvals)

/-- Method `greens_function.solve_ea` (source lines 434-458). -/
def greens_function.solve_ea (self : greens_function) (solver : LinSolver)
    (matvec : Vec → Vec) (cc : CCData) (ps qs : List ℕ)
    (omega_list : List ℂ) (broadening : ℝ) : greens_function × GFRet :=
  (self,
    let gfvals := solveEaTensor solver matvec cc ps qs omega_list broadening
    if ps.length = 1 ∧ qs.length = 1 then
      GFRet.one ((gfvals.getD 0 []).getD 0 [])
    else
      GFRet.three gfvals)

/-- Method `greens_function.solve_ip_ao` (source lines 341-372). -/
def greens_function.solve_ip_ao (self : greens_function)
    (solver : LinSolver) (matvec : Vec → Vec) (cc : CCData) (ps : List ℕ)
    (omega_list : List ℂ) (mo_coeff : ℕ → ℕ → ℂ) (nmo : ℕ)
    (broadening : ℝ) : greens_function × Tensor3 :=
  (self, solveIpAoTensor solver matvec cc ps omega_list mo_coeff nmo broadening)

/-- Method `greens_function.solve_ea_ao` (source lines 374-406). -/
def greens_function.solve_ea_ao (self : greens_function)
    (solver : LinSolver) (matvec : Vec → Vec) (cc : CCData) (ps : List ℕ)
    (omega_list : List ℂ) (mo_coeff : ℕ → ℕ → ℂ) (nmo : ℕ)
    (broadening : ℝ) : greens_function × Tensor3 :=
  (self, solveEaAoTensor solver matvec cc ps omega_list mo_coeff nmo broadening)

/-- Method `greens_function.solve_gf` (source lines 460-461): invokes the
IP and EA solves independently and pairs the results. -/
def greens_function.solve_gf (self : greens_function) (solver : LinSolver)
    (matvecIp matvecEa : Vec → Vec) (cc : CCData) (p q : List ℕ)
    (omega_list : List ℂ) (broadening : ℝ) :
    greens_function × (GFRet × GFRet) :=
  (self,
    ((greens_function.solve_ip self solver matvecIp cc p q omega_list
        broadening).2,
     (greens_function.solve_ea self solver matvecEa cc p q omega_list
        broadening).2))

/-- Method `greens_function.td_ip` (source lines 246-296).  The `re_im`
dispatch (lines 260-269) selects the output dtype and the propagation
factor `tfac`, raising `RuntimeError` (modelled as `none`) for any other
mode string.  The returned dtype is the one `gfvals` is allocated with
(line 280: `dtype=dtype`). -/
def greens_function.td_ip (self : greens_function) (ode : OdeSolver)
    (matvec : Vec → Vec) (cc : CCData) (ps qs : List ℕ) (times : List ℝ)
    (re_im : String) (tol : ℝ) :
    greens_function × Option (NPDtype × Tensor3) :=
  (self,
    if re_im = "im" then
      some (NPDtype.float64, tdIpTensor ode matvec cc ps qs times tol 1)
    else if re_im = "re" then
      some (NPDtype.complex128,
        tdIpTensor ode matvec cc ps qs times tol Complex.I)
    else
      none)

/-- Method `greens_function.td_ea` (source lines 298-339).  The dispatch
(lines 305-314) computes `dtype` and `tfac` (`-1` and `-1j`), but the
output array `gfvals` is allocated with `dtype=complex` unconditionally
(line 324), so the returned dtype is `complex128` in both modes. -/
def greens_function.td_ea (self : greens_function) (ode : OdeSolver)
    (matvec : Vec → Vec) (cc : CCData) (ps qs : List ℕ) (times : List ℝ)
    (re_im : String) (tol : ℝ) :
    greens_function × Option (NPDtype × Tensor3) :=
  (self,
    if re_im = "im" then
      some (NPDtype.complex128, tdEaTensor ode matvec cc ps qs times tol (-1))
    else if re_im = "re" then
      some (NPDtype.complex128,
        tdEaTensor ode matvec cc ps qs times tol (-Complex.I))
    else
      none)

/-- Method `greens_function.td_ip_ao` (source lines 133-193); `gf_ao` is
allocated with the mode-selected dtype (line 175). -/
def greens_function.td_ip_ao (self : greens_function) (ode : OdeSolver)
    (matvec : Vec → Vec) (cc : CCData) (ps : List ℕ) (times : List ℝ)
    (mo_coeff : ℕ → ℕ → ℂ) (nmo : ℕ) (re_im : String) (tol : ℝ) :
    greens_function × Option (NPDtype × Tensor3) :=
  (self,
    if re_im = "im" then
      some (NPDtype.float64,
        tdIpAoTensor ode matvec cc ps times mo_coeff nmo tol 1)
    else if re_im = "re" then
      some (NPDtype.complex128,
        tdIpAoTensor ode matvec cc ps times mo_coeff nmo tol Complex.I)
    else
      none)

/-- Method `greens_function.td_ea_ao` (source lines 195-244); `gf_ao` is
allocated with the mode-selected dtype (line 226) and `tfac` is `-1` or
`-1j`. -/
def greens_function.td_ea_ao (self : greens_function) (ode : OdeSolver)
    (matvec : Vec → Vec) (cc : CCData) (ps : List ℕ) (times : List ℝ)
    (mo_coeff : ℕ → ℕ → ℂ) (nmo : ℕ) (re_im : String) (tol : ℝ) :
    greens_function × Option (NPDtype × Tensor3) :=
  (self,
    if re_im = "im" then
      some (NPDtype.float64,
        tdEaAoTensor ode matvec cc ps times mo_coeff nmo tol (-1))
    else if re_im = "re" then
      some (NPDtype.complex128,
        tdEaAoTensor ode matvec cc ps times mo_coeff nmo tol (-Complex.I))
    else
      none)

/-- Method `greens_function.__solve_linear_problem__` (source lines
463-479).  The optional gminres driver models the `try: import gminres`
dispatch: when it is available its solution is returned; otherwise the
scipy fallback `gmres(Ax, b_vector, x0=x0, callback=...)` is called once
and a nonzero `info` status raises
`RuntimeError("Error solving linear problem: info={:d}".format(info))`,
modelled as `Except.error` carrying the same message. -/
def greens_function.solve_linear_problem (_self : greens_function)
    (gminres : Option LinSolver)
    (gmres : (Vec → Vec) → Vec → Vec → Vec × ℤ)
    (matr_multiply : Vec → Vec) (b_vector x0 p0 : Vec) :
    Except String Vec :=
  match gminres with
  | some driver => Except.ok (driver matr_multiply b_vector x0 p0)
  | none =>
    let result := gmres matr_multiply b_vector x0
    if result.2 ≠ 0 then
      Except.error ("Error solving linear problem: info=" ++ toString result.2)
    else
      Except.ok result.1

/-- Claim C3: for every orbital index `p`, the IP ket (b-vector) builder
returns, for `p < nocc`, the unit vector at position `p` and an all-zero
rank-3 block; for `p >= nocc`, rank-1 `t1[:, p-nocc]` and rank-3
`t2[:, :, :, p-nocc]`. -/
theorem spec_c3 (R : Type) [CommRing R] (nocc nvir : ℕ)
    (t1 : ℕ → ℕ → R) (t2 : ℕ → ℕ → ℕ → ℕ → R) (p : ℕ) :
    (p < nocc →
      (greens_b_amplitudes_ip_rhf nocc nvir t1 t2 p).1
          = (fun i => if i = p then (1 : R) else 0)
      ∧ (greens_b_amplitudes_ip_rhf nocc nvir t1 t2 p).2
          = (fun _ _ _ => (0 : R)))
    ∧ (nocc ≤ p →
      (greens_b_amplitudes_ip_rhf nocc nvir t1 t2 p).1
          = (fun i => t1 i (p - nocc))
      ∧ (greens_b_amplitudes_ip_rhf nocc nvir t1 t2 p).2
          = (fun i j a => t2 i j a (p - nocc))) := by
  constructor
  · intro h
    constructor
    · funext i
      simp [greens_b_amplitudes_ip_rhf, if_pos h, Function.update_apply]
    · funext i j a
      simp [greens_b_amplitudes_ip_rhf, if_pos h]
  · intro h
    constructor
    · funext i
      simp [greens_b_amplitudes_ip_rhf, if_neg (Nat.not_lt.mpr h)]
    · funext i j a
      simp [greens_b_amplitudes_ip_rhf, if_neg (Nat.not_lt.mpr h)]

/-- Witness for C3 at a concrete occupied input. -/
theorem spec_c3_witness :
    0 < 1
    ∧ (greens_b_amplitudes_ip_rhf (R := ℚ) 1 1
          (fun _ _ => 2) (fun _ _ _ _ => 3) 0).1
        = (fun i => if i = 0 then (1 : ℚ) else 0) :=
  ⟨by decide,
   ((spec_c3 ℚ 1 1 (fun _ _ => 2) (fun _ _ _ _ => 3) 0).1 (by decide)).1⟩

/-- Claim C2: for every orbital index `p`, the IP bra (e-vector) builder
returns, for `p < nocc`, the negated unit vector at `p` plus the `l1·t1`
and `l2·t2` contraction corrections with coefficients `{+1, +2, -1}`
(rank-1) and the `-2·l1`/`+l1` broadcasts into row/column `p` plus the two
`t1[p,:]`-weighted `l2` contractions with coefficients `{+2, -1}`
(rank-3); for `p >= nocc`, rank-1 `-l1[:, p-nocc]` and rank-3
`-2·l2[:,:,p-nocc,:] + l2[:,:,:,p-nocc]`. -/
theorem spec_c2 (R : Type) [CommRing R] (nocc nvir : ℕ)
    (t1 : ℕ → ℕ → R) (t2 : ℕ → ℕ → ℕ → ℕ → R)
    (l1 : ℕ → ℕ → R) (l2 : ℕ → ℕ → ℕ → ℕ → R) (p : ℕ) :
    (p < nocc →
      (greens_e_amplitudes_ip_rhf nocc nvir t1 t2 l1 l2 p).1
          = (fun i => (if i = p then (-1 : R) else 0)
              + ∑ a ∈ Finset.range nvir, l1 i a * t1 p a
              + 2 * ∑ l ∈ Finset.range nocc, ∑ c ∈ Finset.range nvir,
                  ∑ d ∈ Finset.range nvir, l2 i l c d * t2 p l c d
              - ∑ l ∈ Finset.range nocc, ∑ c ∈ Finset.range nvir,
                  ∑ d ∈ Finset.range nvir, l2 i l c d * t2 p l d c)
      ∧ (greens_e_amplitudes_ip_rhf nocc nvir t1 t2 l1 l2 p).2
          = (fun i j b => (if i = p then -2 * l1 j b else 0)
              + (if j = p then l1 i b else 0)
              + 2 * ∑ c ∈ Finset.range nvir, t1 p c * l2 i j c b
              - ∑ c ∈ Finset.range nvir, t1 p c * l2 j i c b))
    ∧ (nocc ≤ p →
      (greens_e_amplitudes_ip_rhf nocc nvir t1 t2 l1 l2 p).1
          = (fun i => -l1 i (p - nocc))
      ∧ (greens_e_amplitudes_ip_rhf nocc nvir t1 t2 l1 l2 p).2
          = (fun i j b => -2 * l2 i j (p - nocc) b + l2 i j b (p - nocc))) := by
  constructor
  · intro h
    constructor
    · funext i
      simp only [greens_e_amplitudes_ip_rhf, if_pos h, Function.update_apply]
    · funext i j b
      simp only [greens_e_amplitudes_ip_rhf, if_pos h, zero_add]
  · intro h
    constructor
    · funext i
      simp only [greens_e_amplitudes_ip_rhf, if_neg (Nat.not_lt.mpr h)]
    · funext i j b
      simp only [greens_e_amplitudes_ip_rhf, if_neg (Nat.not_lt.mpr h)]

/-- Witness for C2 at a concrete occupied input. -/
theorem spec_c2_witness :
    0 < 1
    ∧ (greens_e_amplitudes_ip_rhf (R := ℚ) 1 1
          (fun _ _ => 2) (fun _ _ _ _ => 3)
          (fun _ _ => 5) (fun _ _ _ _ => 7) 0).1
        = (fun i => (if i = 0 then (-1 : ℚ) else 0)
            + ∑ a ∈ Finset.range 1, (fun _ _ => (5 : ℚ)) i a * 2
            + 2 * ∑ l ∈ Finset.range 1, ∑ c ∈ Finset.range 1,
                ∑ d ∈ Finset.range 1, (7 : ℚ) * 3
            - ∑ l ∈ Finset.range 1, ∑ c ∈ Finset.range 1,
                ∑ d ∈ Finset.range 1, (7 : ℚ) * 3) :=
  ⟨by decide,
   ((spec_c2 ℚ 1 1 (fun _ _ => 2) (fun _ _ _ _ => 3)
      (fun _ _ => 5) (fun _ _ _ _ => 7) 0).1 (by decide)).1⟩

/-- Claim C6: at the occupied/virtual boundary `p = nocc`, every vector
builder (IP and EA, ket and bra) produces the virtual-branch formula with
virtual index `0`, never the occupied branch. -/
theorem spec_c6 (R : Type) [CommRing R] (nocc nvir : ℕ)
    (t1 : ℕ → ℕ → R) (t2 : ℕ → ℕ → ℕ → ℕ → R)
    (l1 : ℕ → ℕ → R) (l2 : ℕ → ℕ → ℕ → ℕ → R) :
    greens_b_amplitudes_ip_rhf nocc nvir t1 t2 nocc
        = ((fun i => t1 i 0), (fun i j a => t2 i j a 0))
    ∧ greens_e_amplitudes_ip_rhf nocc nvir t1 t2 l1 l2 nocc
        = ((fun i => -l1 i 0),
           (fun i j b => -2 * l2 i j 0 b + l2 i j b 0))
    ∧ greens_b_amplitudes_ea_rhf nocc nvir t1 t2 nocc
        = ((fun a => if a = 0 then (1 : R) else 0), (fun _ _ _ => 0))
    ∧ greens_e_amplitudes_ea_rhf nocc nvir t1 t2 l1 l2 nocc
        = ((fun a => (if a = 0 then (-1 : R) else 0)
              + ∑ i ∈ Finset.range nocc, l1 i a * t1 i 0
              + 2 * ∑ k ∈ Finset.range nocc, ∑ l ∈ Finset.range nocc,
                  ∑ c ∈ Finset.range nvir, l2 k l c a * t2 k l c 0
              - ∑ k ∈ Finset.range nocc, ∑ l ∈ Finset.range nocc,
                  ∑ c ∈ Finset.range nvir, l2 k l c a * t2 l k c 0),
           (fun j a b => (if a = 0 then -2 * l1 j b else 0)
              + (if b = 0 then l1 j a else 0)
              + 2 * ∑ k ∈ Finset.range nocc, t1 k 0 * l2 j k b a
              - ∑ k ∈ Finset.range nocc, t1 k 0 * l2 j k a b)) := by
  refine ⟨?_, ?_, ?_, ?_⟩
  · simp only [greens_b_amplitudes_ip_rhf, if_neg (lt_irrefl nocc),
      Nat.sub_self]
  · simp only [greens_e_amplitudes_ip_rhf, if_neg (lt_irrefl nocc),
      Nat.sub_self]
  · refine Prod.ext ?_ ?_
    · funext a
      simp only [greens_b_amplitudes_ea_rhf, if_neg (lt_irrefl nocc),
        Function.update_apply, Nat.sub_self]
    · funext k a b
      simp only [greens_b_amplitudes_ea_rhf, if_neg (lt_irrefl nocc)]
  · refine Prod.ext ?_ ?_
    · funext a
      simp only [greens_e_amplitudes_ea_rhf, if_neg (lt_irrefl nocc),
        Function.update_apply, Nat.sub_self]
    · funext j a b
      simp only [greens_e_amplitudes_ea_rhf, if_neg (lt_irrefl nocc),
        Nat.sub_self, zero_add]

/-- Indexing composed with `map` inside the valid range. -/
theorem getD_map_of_lt {α β : Type} (f : α → β) (l : List α) (i : ℕ)
    (d : β) (d' : α) (h : i < l.length) :
    (l.map f).getD i d = f (l.getD i d') := by
  induction l generalizing i with
  | nil => simp at h
  | cons a l ih =>
    cases i with
    | zero => simp
    | succ i =>
      simp only [List.map_cons, List.getD_cons_succ]
      exact ih i (by simpa using h)

/-- An in-range `getD` is a member of the list. -/
theorem getD_mem_of_lt {α : Type} (l : List α) (i : ℕ) (d : α)
    (h : i < l.length) : l.getD i d ∈ l := by
  rw [List.getD_eq_getElem l d h]
  exact List.getElem_mem h

/-- Reading back `List.range`. -/
theorem range_getD (n j : ℕ) (h : j < n) : (List.range n).getD j 0 = j := by
  rw [List.getD_eq_getElem _ _ (by simpa using h)]
  simp

/-- A nonempty list's `getLast?` is its `getLastD`. -/
theorem getLast?_eq_some_getLastD {α : Type} (l : List α) (d : α)
    (h : l ≠ []) : l.getLast? = some (l.getLastD d) := by
  cases hl : l.getLast? with
  | none => exact absurd (List.getLast?_eq_none_iff.mp hl) h
  | some z =>
    rw [List.getLastD_eq_getLast?, hl]
    rfl

/-- The frequency sweep produces one solution per frequency. -/
theorem freqSweep_length (s : LinSolver) (m : ℂ → Vec → Vec)
    (b p0 : Vec) : ∀ (ωs : List ℂ) (x0 : Vec),
    ((freqSweep s m b p0 ωs x0).1).length = ωs.length := by
  intro ωs
  induction ωs with
  | nil => intro x0; rfl
  | cons ω rest ih => intro x0; simp [freqSweep, ih]

/-- The guess carried out of a frequency sweep is its last solution (or
the incoming guess when there are no frequencies). -/
theorem freqSweep_snd_eq (s : LinSolver) (m : ℂ → Vec → Vec)
    (b p0 : Vec) : ∀ (ωs : List ℂ) (x0 : Vec),
    (freqSweep s m b p0 ωs x0).2
      = ((freqSweep s m b p0 ωs x0).1).getLastD x0 := by
  intro ωs
  induction ωs with
  | nil => intro x0; rfl
  | cons ω rest ih =>
    intro x0
    simp only [freqSweep, List.getLastD_cons]
    exact ih _

/-- Every solution in a frequency sweep is the solver applied to the
operator built for that frequency, the shared `b`-vector and `p0`, and
some carried guess. -/
theorem freqSweep_getD (s : LinSolver) (m : ℂ → Vec → Vec)
    (b p0 : Vec) : ∀ (ωs : List ℂ) (x0 : Vec) (k : ℕ), k < ωs.length →
    ∃ x, ((freqSweep s m b p0 ωs x0).1).getD k []
        = s (m (ωs.getD k 0)) b x p0 := by
  intro ωs
  induction ωs with
  | nil => intro x0 k h; simp at h
  | cons ω rest ih =>
    intro x0 k h
    cases k with
    | zero => exact ⟨x0, rfl⟩
    | succ k =>
      simp only [freqSweep, List.getD_cons_succ]
      exact ih _ k (by simpa using h)

/-- The ket sweep produces one row per ket index. -/
theorem ketSweep_length (s : LinSolver) (m : ℂ → Vec → Vec) (bV : ℕ → Vec)
    (p0 : Vec) (ωs : List ℂ) : ∀ (ps : List ℕ) (x0 : Vec),
    ((ketSweep s m bV p0 ωs ps x0).1).length = ps.length := by
  intro ps
  induction ps with
  | nil => intro x0; rfl
  | cons p rest ih => intro x0; simp [ketSweep, ih]

/-- Every row of a ket sweep has one solution per frequency. -/
theorem ketSweep_mem_length (s : LinSolver) (m : ℂ → Vec → Vec)
    (bV : ℕ → Vec) (p0 : Vec) (ωs : List ℂ) :
    ∀ (ps : List ℕ) (x0 : Vec) (row : List Vec),
    row ∈ (ketSweep s m bV p0 ωs ps x0).1 → row.length = ωs.length := by
  intro ps
  induction ps with
  | nil => intro x0 row h; simp [ketSweep] at h
  | cons p rest ih =>
    intro x0 row h
    simp only [ketSweep, List.mem_cons] at h
    rcases h with h | h
    · rw [h]; exact freqSweep_length s m (bV p) p0 ωs x0
    · exact ih _ row h

/-- Every solution of a ket sweep is the solver applied to the operator
for its frequency, the `b`-vector rebuilt for its ket index, and some
carried guess. -/
theorem ketSweep_getD_ex (s : LinSolver) (m : ℂ → Vec → Vec)
    (bV : ℕ → Vec) (p0 : Vec) (ωs : List ℂ) :
    ∀ (ps : List ℕ) (x0 : Vec) (i k : ℕ), i < ps.length → k < ωs.length →
    ∃ x, (((ketSweep s m bV p0 ωs ps x0).1).getD i []).getD k []
        = s (m (ωs.getD k 0)) (bV (ps.getD i 0)) x p0 := by
  intro ps
  induction ps with
  | nil => intro x0 i k hi hk; simp at hi
  | cons p rest ih =>
    intro x0 i k hi hk
    cases i with
    | zero =>
      simp only [ketSweep, List.getD_cons_zero]
      exact freqSweep_getD s m (bV p) p0 ωs x0 k hk
    | succ i =>
      simp only [ketSweep, List.getD_cons_succ]
      exact ih _ i k (by simpa using hi) hk

/-- Warm-start chaining across ket indices: for a nonempty frequency
list, the first solve of ket index `i+1` starts from the last solution of
ket index `i`. -/
theorem ketSweep_chain (s : LinSolver) (m : ℂ → Vec → Vec) (bV : ℕ → Vec)
    (p0 : Vec) (ω0 : ℂ) (ωrest : List ℂ) :
    ∀ (i : ℕ) (ps : List ℕ) (x0 : Vec), i + 1 < ps.length →
    ∃ y, (((ketSweep s m bV p0 (ω0 :: ωrest) ps x0).1).getD i []).getLast?
            = some y
      ∧ (((ketSweep s m bV p0 (ω0 :: ωrest) ps x0).1).getD (i + 1) []).head?
            = some (s (m ω0) (bV (ps.getD (i + 1) 0)) y p0) := by
  intro i
  induction i with
  | zero =>
    intro ps x0 h
    rcases ps with _ | ⟨p1, _ | ⟨p2, rest⟩⟩
    · simp at h
    · simp at h
    · refine ⟨(freqSweep s m (bV p1) p0 (ω0 :: ωrest) x0).2, ?_, ?_⟩
      · have hne : (freqSweep s m (bV p1) p0 (ω0 :: ωrest) x0).1 ≠ [] := by
          intro hnil
          have := freqSweep_length s m (bV p1) p0 (ω0 :: ωrest) x0
          rw [hnil] at this
          simp at this
        simp only [ketSweep, List.getD_cons_zero]
        rw [getLast?_eq_some_getLastD _ x0 hne,
          ← freqSweep_snd_eq s m (bV p1) p0 (ω0 :: ωrest) x0]
      · rfl
  | succ i ih =>
    intro ps x0 h
    rcases ps with _ | ⟨p, rest⟩
    · simp at h
    · obtain ⟨y, hy1, hy2⟩ :=
        ih rest (freqSweep s m (bV p) p0 (ω0 :: ωrest) x0).2 (by simpa using h)
      refine ⟨y, ?_, ?_⟩
      · simpa only [ketSweep, List.getD_cons_succ] using hy1
      · simpa only [ketSweep, List.getD_cons_succ] using hy2

/-- Mapping a constant over `List.range`. -/
theorem range_map_const {α : Type} (n : ℕ) (a : α) :
    (List.range n).map (fun _ => a) = List.replicate n a := by
  induction n with
  | zero => rfl
  | succ n ih =>
    rw [List.range_succ, List.map_append, ih, List.map_cons, List.map_nil,
      ← List.replicate_succ', List.replicate_succ']

/-- Flattening a replicated replicate. -/
theorem replicate_flatten {α : Type} (n m : ℕ) (a : α) :
    (List.replicate n (List.replicate m a)).flatten
      = List.replicate (n * m) a := by
  induction n with
  | zero => simp
  | succ n ih =>
    rw [List.replicate_succ, List.flatten_cons, ih, ← List.replicate_add,
      Nat.succ_mul, Nat.add_comm]

/-- The initial IP guess is the zero vector of the IP sector dimension. -/
theorem initial_ip_guess_eq (cc : CCData) :
    initial_ip_guess cc = List.replicate (ip_shape cc) 0 := by
  simp only [initial_ip_guess, amplitudes_to_vector_ip, ip_shape,
    range_map_const, replicate_flatten, ← List.replicate_add, Nat.mul_assoc]

/-- The initial EA guess is the zero vector of the EA sector dimension. -/
theorem initial_ea_guess_eq (cc : CCData) :
    initial_ea_guess cc = List.replicate (ea_shape cc) 0 := by
  simp only [initial_ea_guess, amplitudes_to_vector_ea, ea_shape,
    range_map_const, replicate_flatten, ← List.replicate_add, Nat.mul_assoc]

/-- Number of rows of the IP solution list. -/
theorem solveIpSols_length (solver : LinSolver) (matvec : Vec → Vec)
    (cc : CCData) (ps : List ℕ) (ωs : List ℂ) (η : ℝ) :
    (solveIpSols solver matvec cc ps ωs η).length = ps.length := by
  simp only [solveIpSols]
  exact ketSweep_length _ _ _ _ _ _ _

/-- Number of rows of the EA solution list. -/
theorem solveEaSols_length (solver : LinSolver) (matvec : Vec → Vec)
    (cc : CCData) (qs : List ℕ) (ωs : List ℂ) (η : ℝ) :
    (solveEaSols solver matvec cc qs ωs η).length = qs.length := by
  simp only [solveEaSols]
  exact ketSweep_length _ _ _ _ _ _ _

/-- Row lengths of the IP solution list. -/
theorem solveIpSols_mem_length (solver : LinSolver) (matvec : Vec → Vec)
    (cc : CCData) (ps : List ℕ) (ωs : List ℂ) (η : ℝ) (row : List Vec)
    (h : row ∈ solveIpSols solver matvec cc ps ωs η) :
    row.length = ωs.length := by
  simp only [solveIpSols] at h
  exact ketSweep_mem_length _ _ _ _ _ _ _ row h

/-- Row lengths of the EA solution list. -/
theorem solveEaSols_mem_length (solver : LinSolver) (matvec : Vec → Vec)
    (cc : CCData) (qs : List ℕ) (ωs : List ℂ) (η : ℝ) (row : List Vec)
    (h : row ∈ solveEaSols solver matvec cc qs ωs η) :
    row.length = ωs.length := by
  simp only [solveEaSols] at h
  exact ketSweep_mem_length _ _ _ _ _ _ _ row h

/-- Entry formula of the IP MO tensor: position `[i][j][k]` projects the
`e`-vector of `qs[j]` onto the solution for ket `ps[i]` at frequency
`ωs[k]`, with sign `-1`. -/
theorem solveIpTensor_entry (solver : LinSolver) (matvec : Vec → Vec)
    (cc : CCData) (ps qs : List ℕ) (ωs : List ℂ) (η : ℝ) (i j k : ℕ)
    (hi : i < ps.length) (hj : j < qs.length) (hk : k < ωs.length) :
    (((solveIpTensor solver matvec cc ps qs ωs η).getD i []).getD j
        []).getD k 0
      = -arrDot (greens_e_vector_ip_rhf cc (qs.getD j 0))
          (((solveIpSols solver matvec cc ps ωs η).getD i []).getD k []) := by
  have hlen : (solveIpSols solver matvec cc ps ωs η).length = ps.length :=
    solveIpSols_length solver matvec cc ps ωs η
  have hrow : ((solveIpSols solver matvec cc ps ωs η).getD i []).length
      = ωs.length :=
    solveIpSols_mem_length solver matvec cc ps ωs η _
      (getD_mem_of_lt _ i [] (by rw [hlen]; exact hi))
  simp only [solveIpTensor]
  rw [getD_map_of_lt _ _ i [] [] (by rw [hlen]; exact hi),
    getD_map_of_lt _ _ j [] []
      (by rw [List.length_map]; exact hj),
    getD_map_of_lt (greens_e_vector_ip_rhf cc) qs j [] 0 hj,
    getD_map_of_lt _ _ k 0 [] (by rw [hrow]; exact hk)]

/-- Entry formula of the EA MO tensor: position `[i][j][k]` projects the
`e`-vector of `ps[i]` onto the solution for ket `qs[j]` at frequency
`ωs[k]`, with sign `+1`. -/
theorem solveEaTensor_entry (solver : LinSolver) (matvec : Vec → Vec)
    (cc : CCData) (ps qs : List ℕ) (ωs : List ℂ) (η : ℝ) (i j k : ℕ)
    (hi : i < ps.length) (hj : j < qs.length) (hk : k < ωs.length) :
    (((solveEaTensor solver matvec cc ps qs ωs η).getD i []).getD j
        []).getD k 0
      = arrDot (greens_e_vector_ea_rhf cc (ps.getD i 0))
          (((solveEaSols solver matvec cc qs ωs η).getD j []).getD k []) := by
  have hlen : (solveEaSols solver matvec cc qs ωs η).length = qs.length :=
    solveEaSols_length solver matvec cc qs ωs η
  have hrow : ((solveEaSols solver matvec cc qs ωs η).getD j []).length
      = ωs.length :=
    solveEaSols_mem_length solver matvec cc qs ωs η _
      (getD_mem_of_lt _ j [] (by rw [hlen]; exact hj))
  simp only [solveEaTensor]
  rw [getD_map_of_lt _ _ i [] []
      (by rw [List.length_map]; exact hi),
    getD_map_of_lt (greens_e_vector_ea_rhf cc) ps i [] 0 hi,
    getD_map_of_lt _ _ j [] [] (by rw [hlen]; exact hj),
    getD_map_of_lt _ _ k 0 [] (by rw [hrow]; exact hk)]

/-- Number of rows of the AO IP solution list. -/
theorem solveIpAoSols_length (solver : LinSolver) (matvec : Vec → Vec)
    (cc : CCData) (ps : List ℕ) (ωs : List ℂ) (mo_coeff : ℕ → ℕ → ℂ)
    (nmo : ℕ) (η : ℝ) :
    (solveIpAoSols solver matvec cc ps ωs mo_coeff nmo η).length
      = ps.length := by
  simp only [solveIpAoSols]
  exact ketSweep_length _ _ _ _ _ _ _

/-- Row lengths of the AO IP solution list. -/
theorem solveIpAoSols_mem_length (solver : LinSolver) (matvec : Vec → Vec)
    (cc : CCData) (ps : List ℕ) (ωs : List ℂ) (mo_coeff : ℕ → ℕ → ℂ)
    (nmo : ℕ) (η : ℝ) (row : List Vec)
    (h : row ∈ solveIpAoSols solver matvec cc ps ωs mo_coeff nmo η) :
    row.length = ωs.length := by
  simp only [solveIpAoSols] at h
  exact ketSweep_mem_length _ _ _ _ _ _ _ row h

/-- Number of rows of the AO EA solution list. -/
theorem solveEaAoSols_length (solver : LinSolver) (matvec : Vec → Vec)
    (cc : CCData) (ps : List ℕ) (ωs : List ℂ) (mo_coeff : ℕ → ℕ → ℂ)
    (nmo : ℕ) (η : ℝ) :
    (solveEaAoSols solver matvec cc ps ωs mo_coeff nmo η).length
      = ps.length := by
  simp only [solveEaAoSols]
  exact ketSweep_length _ _ _ _ _ _ _

/-- Row lengths of the AO EA solution list. -/
theorem solveEaAoSols_mem_length (solver : LinSolver) (matvec : Vec → Vec)
    (cc : CCData) (ps : List ℕ) (ωs : List ℂ) (mo_coeff : ℕ → ℕ → ℂ)
    (nmo : ℕ) (η : ℝ) (row : List Vec)
    (h : row ∈ solveEaAoSols solver matvec cc ps ωs mo_coeff nmo η) :
    row.length = ωs.length := by
  simp only [solveEaAoSols] at h
  exact ketSweep_mem_length _ _ _ _ _ _ _ row h

/-- Entry formula of the IP AO tensor: position `[i][j][k]` projects the
AO-transformed `e`-vector at position `j` onto the solution of row `i` at
frequency `ωs[k]`, with sign `-1`. -/
theorem solveIpAoTensor_entry (solver : LinSolver) (matvec : Vec → Vec)
    (cc : CCData) (ps : List ℕ) (ωs : List ℂ) (mo_coeff : ℕ → ℕ → ℂ)
    (nmo : ℕ) (η : ℝ) (i j k : ℕ)
    (hi : i < ps.length) (hj : j < ps.length) (hk : k < ωs.length) :
    (((solveIpAoTensor solver matvec cc ps ωs mo_coeff nmo η).getD i
        []).getD j []).getD k 0
      = -arrDot
          (aoVec nmo (ip_shape cc) mo_coeff (ps.getD j 0)
            (greens_e_vector_ip_rhf cc))
          (((solveIpAoSols solver matvec cc ps ωs mo_coeff nmo η).getD i
              []).getD k []) := by
  have hlen := solveIpAoSols_length solver matvec cc ps ωs mo_coeff nmo η
  have hrow : ((solveIpAoSols solver matvec cc ps ωs mo_coeff nmo η).getD i
      []).length = ωs.length :=
    solveIpAoSols_mem_length solver matvec cc ps ωs mo_coeff nmo η _
      (getD_mem_of_lt _ i [] (by rw [hlen]; exact hi))
  simp only [solveIpAoTensor]
  rw [getD_map_of_lt _ _ i [] [] (by rw [hlen]; exact hi),
    getD_map_of_lt _ _ j [] []
      (by rw [List.length_map, List.length_range]; exact hj),
    getD_map_of_lt _ (List.range ps.length) j [] 0
      (by rw [List.length_range]; exact hj),
    range_getD ps.length j hj,
    getD_map_of_lt _ _ k 0 [] (by rw [hrow]; exact hk)]

/-- Entry formula of the EA AO tensor: position `[i][j][k]` projects the
AO-transformed `e`-vector at position `i` onto the solution of row `j` at
frequency `ωs[k]`, with sign `+1`. -/
theorem solveEaAoTensor_entry (solver : LinSolver) (matvec : Vec → Vec)
    (cc : CCData) (ps : List ℕ) (ωs : List ℂ) (mo_coeff : ℕ → ℕ → ℂ)
    (nmo : ℕ) (η : ℝ) (i j k : ℕ)
    (hi : i < ps.length) (hj : j < ps.length) (hk : k < ωs.length) :
    (((solveEaAoTensor solver matvec cc ps ωs mo_coeff nmo η).getD i
        []).getD j []).getD k 0
      = arrDot
          (aoVec nmo (ea_shape cc) mo_coeff (ps.getD i 0)
            (greens_e_vector_ea_rhf cc))
          (((solveEaAoSols solver matvec cc ps ωs mo_coeff nmo η).getD j
              []).getD k []) := by
  have hlen := solveEaAoSols_length solver matvec cc ps ωs mo_coeff nmo η
  have hrow : ((solveEaAoSols solver matvec cc ps ωs mo_coeff nmo η).getD j
      []).length = ωs.length :=
    solveEaAoSols_mem_length solver matvec cc ps ωs mo_coeff nmo η _
      (getD_mem_of_lt _ j [] (by rw [hlen]; exact hj))
  simp only [solveEaAoTensor]
  rw [getD_map_of_lt _ _ i [] []
      (by rw [List.length_map, List.length_range]; exact hi),
    getD_map_of_lt _ (List.range ps.length) i [] 0
      (by rw [List.length_range]; exact hi),
    range_getD ps.length i hi,
    getD_map_of_lt _ _ j [] [] (by rw [hlen]; exact hj),
    getD_map_of_lt _ _ k 0 [] (by rw [hrow]; exact hk)]

/-- Concrete toy CC state (one occupied, one virtual orbital) used to
evaluate the theorems on explicit inputs. -/
def ccC : CCData :=
  { nocc := 1, nvir := 1, t1 := fun _ _ => 0, t2 := fun _ _ _ _ => 5,
    l1 := fun _ _ => 3, l2 := fun _ _ _ _ => 0 }

/-- Concrete linear solver instance: returns the right-hand side. -/
def solverC : LinSolver := fun _A b _x0 _p0 => b

/-- Concrete EOM matvec instance: the identity operator. -/
def mvC : Vec → Vec := fun v => v

/-- Concrete ODE solver instance: constant-in-time samples. -/
def odeC : OdeSolver := fun _rhs _span y0 times _tol => times.map (fun _ => y0)

/-- Claim C5: every solution produced by the frequency sweep is the
linear solver applied to the shifted operator
`A(v) = EOM_matvec(v) + shift*v`, with `shift = ω - i*broadening` in the
IP sector and `shift = -ω - i*broadening` in the EA sector (for the
frequency `ω` of that solve).  `ipMatrMultiply`/`eaMatrMultiply` are the
operator closures used by all four frequency-domain drivers. -/
theorem spec_c5 (solver : LinSolver) (matvec : Vec → Vec) (broadening : ℝ)
    (b p0 x0 : Vec) (ωs : List ℂ) (k : ℕ) (hk : k < ωs.length) :
    (∃ x, ((freqSweep solver (ipMatrMultiply matvec broadening) b p0 ωs
          x0).1).getD k []
        = solver
            (fun v => arrAdd (matvec v)
              (arrSMul (ωs.getD k 0 - Complex.I * broadening) v)) b x p0)
    ∧ (∃ x, ((freqSweep solver (eaMatrMultiply matvec broadening) b p0 ωs
          x0).1).getD k []
        = solver
            (fun v => arrAdd (matvec v)
              (arrSMul (-ωs.getD k 0 - Complex.I * broadening) v)) b x p0) := by
  constructor
  · obtain ⟨x, hx⟩ :=
      freqSweep_getD solver (ipMatrMultiply matvec broadening) b p0 ωs x0 k hk
    exact ⟨x, hx⟩
  · obtain ⟨x, hx⟩ :=
      freqSweep_getD solver (eaMatrMultiply matvec broadening) b p0 ωs x0 k hk
    exact ⟨x, hx⟩

/-- Witness for C5 on a concrete frequency list. -/
theorem spec_c5_witness :
    0 < 1
    ∧ ((∃ x, ((freqSweep solverC (ipMatrMultiply mvC 0) [1] [1] [2]
            [0]).1).getD 0 []
          = solverC
              (fun v => arrAdd (mvC v)
                (arrSMul (([(2 : ℂ)].getD 0 0) - Complex.I * (0 : ℝ)) v))
              [1] x [1])
      ∧ (∃ x, ((freqSweep solverC (eaMatrMultiply mvC 0) [1] [1] [2]
            [0]).1).getD 0 []
          = solverC
              (fun v => arrAdd (mvC v)
                (arrSMul (-([(2 : ℂ)].getD 0 0) - Complex.I * (0 : ℝ)) v))
              [1] x [1])) :=
  ⟨by decide, spec_c5 solverC mvC 0 [1] [1] [0] [2] 0 (by decide)⟩

/-- Claim C7: when gminres is unavailable and the scipy gmres fallback
returns a nonzero status code `info`, the solve raises a fatal
`RuntimeError` carrying the status code in its message (no retry is
attempted — the solver is invoked exactly once in the body); with status
zero the solution is returned. -/
theorem spec_c7 (self : greens_function)
    (gmres : (Vec → Vec) → Vec → Vec → Vec × ℤ)
    (matr_multiply : Vec → Vec) (b_vector x0 p0 : Vec) :
    ((gmres matr_multiply b_vector x0).2 ≠ 0 →
      greens_function.solve_linear_problem self none gmres matr_multiply
          b_vector x0 p0
        = Except.error ("Error solving linear problem: info="
            ++ toString (gmres matr_multiply b_vector x0).2))
    ∧ ((gmres matr_multiply b_vector x0).2 = 0 →
      greens_function.solve_linear_problem self none gmres matr_multiply
          b_vector x0 p0
        = Except.ok (gmres matr_multiply b_vector x0).1) := by
  constructor
  · intro h
    simp [greens_function.solve_linear_problem, h]
  · intro h
    simp [greens_function.solve_linear_problem, h]

/-- Witness for C7: a gmres instance reporting status 3 produces the
fatal error message with the code, and one reporting status 0 returns
its solution. -/
theorem spec_c7_witness :
    ((3 : ℤ) ≠ 0
      ∧ greens_function.solve_linear_problem ⟨0⟩ none
          (fun _ _ _ => ([], (3 : ℤ))) mvC [] [] []
        = Except.error ("Error solving linear problem: info="
            ++ toString (3 : ℤ)))
    ∧ ((0 : ℤ) = 0
      ∧ greens_function.solve_linear_problem ⟨0⟩ none
          (fun _ _ _ => ([(7 : ℂ)], (0 : ℤ))) mvC [] [] []
        = Except.ok [(7 : ℂ)]) :=
  ⟨⟨by decide,
    (spec_c7 ⟨0⟩ (fun _ _ _ => ([], (3 : ℤ))) mvC [] [] []).1 (by decide)⟩,
   ⟨rfl,
    (spec_c7 ⟨0⟩ (fun _ _ _ => ([(7 : ℂ)], (0 : ℤ))) mvC [] [] []).2 rfl⟩⟩

/-- Claim C10: within one frequency-domain solve call the warm-start
vector `x0` is the zero vector of the sector dimension at call start, and
it is never reset afterwards: for every ket index after the first, the
first frequency's solve starts from the converged solution of the last
frequency of the previous ket index (shown here for `solve_ip` and
`solve_ea`, whose solution lists are `solveIpSols`/`solveEaSols`). -/
theorem spec_c10 (solver : LinSolver) (matvec : Vec → Vec) (cc : CCData)
    (ps qs : List ℕ) (broadening : ℝ) (ω0 : ℂ) (ωrest : List ℂ) :
    initial_ip_guess cc = List.replicate (ip_shape cc) 0
    ∧ initial_ea_guess cc = List.replicate (ea_shape cc) 0
    ∧ (∀ i, i + 1 < ps.length →
      ∃ y, ((solveIpSols solver matvec cc ps (ω0 :: ωrest)
              broadening).getD i []).getLast? = some y
        ∧ ((solveIpSols solver matvec cc ps (ω0 :: ωrest)
              broadening).getD (i + 1) []).head?
            = some (solver (ipMatrMultiply matvec broadening ω0)
                (greens_b_vector_ip_rhf cc (ps.getD (i + 1) 0)) y
                ((initial_ip_guess cc).map (fun z => 0 * z + 1))))
    ∧ (∀ i, i + 1 < qs.length →
      ∃ y, ((solveEaSols solver matvec cc qs (ω0 :: ωrest)
              broadening).getD i []).getLast? = some y
        ∧ ((solveEaSols solver matvec cc qs (ω0 :: ωrest)
              broadening).getD (i + 1) []).head?
            = some (solver (eaMatrMultiply matvec broadening ω0)
                (greens_b_vector_ea_rhf cc (qs.getD (i + 1) 0)) y
                ((initial_ea_guess cc).map (fun z => 0 * z + 1)))) := by
  refine ⟨initial_ip_guess_eq cc, initial_ea_guess_eq cc, ?_, ?_⟩
  · intro i hi
    simpa only [solveIpSols] using
      ketSweep_chain solver (ipMatrMultiply matvec broadening)
        (greens_b_vector_ip_rhf cc)
        ((initial_ip_guess cc).map (fun z => 0 * z + 1)) ω0 ωrest i ps
        (initial_ip_guess cc) hi
  · intro i hi
    simpa only [solveEaSols] using
      ketSweep_chain solver (eaMatrMultiply matvec broadening)
        (greens_b_vector_ea_rhf cc)
        ((initial_ea_guess cc).map (fun z => 0 * z + 1)) ω0 ωrest i qs
        (initial_ea_guess cc) hi

/-- Witness for C10 on a concrete two-ket, one-frequency instance. -/
theorem spec_c10_witness :
    0 + 1 < ([0, 1] : List ℕ).length
    ∧ (∃ y, ((solveIpSols solverC mvC ccC [0, 1] [(2 : ℂ)] 0).getD 0
            []).getLast? = some y
        ∧ ((solveIpSols solverC mvC ccC [0, 1] [(2 : ℂ)] 0).getD (0 + 1)
            []).head?
          = some (solverC (ipMatrMultiply mvC 0 2)
              (greens_b_vector_ip_rhf ccC (([0, 1] : List ℕ).getD (0 + 1) 0))
              y ((initial_ip_guess ccC).map (fun z => 0 * z + 1)))) :=
  ⟨by decide, (spec_c10 solverC mvC ccC [0, 1] [] 0 2 []).2.2.1 0 (by decide)⟩

/-- Dimensions of the IP MO tensor. -/
theorem solveIpTensor_dims (solver : LinSolver) (matvec : Vec → Vec)
    (cc : CCData) (ps qs : List ℕ) (ωs : List ℂ) (η : ℝ) :
    (solveIpTensor solver matvec cc ps qs ωs η).length = ps.length
    ∧ ∀ r ∈ solveIpTensor solver matvec cc ps qs ωs η,
        r.length = qs.length ∧ ∀ u ∈ r, u.length = ωs.length := by
  constructor
  · simp only [solveIpTensor, List.length_map]
    exact solveIpSols_length solver matvec cc ps ωs η
  · intro r hr
    simp only [solveIpTensor, List.mem_map] at hr
    obtain ⟨row, hrow, rfl⟩ := hr
    refine ⟨by simp, ?_⟩
    intro u hu
    simp only [List.mem_map] at hu
    obtain ⟨e, _, rfl⟩ := hu
    simp only [List.length_map]
    exact solveIpSols_mem_length solver matvec cc ps ωs η row hrow

/-- Dimensions of the EA MO tensor. -/
theorem solveEaTensor_dims (solver : LinSolver) (matvec : Vec → Vec)
    (cc : CCData) (ps qs : List ℕ) (ωs : List ℂ) (η : ℝ) :
    (solveEaTensor solver matvec cc ps qs ωs η).length = ps.length
    ∧ ∀ r ∈ solveEaTensor solver matvec cc ps qs ωs η,
        r.length = qs.length ∧ ∀ u ∈ r, u.length = ωs.length := by
  constructor
  · simp only [solveEaTensor, List.length_map]
  · intro r hr
    simp only [solveEaTensor, List.mem_map] at hr
    obtain ⟨e, _, rfl⟩ := hr
    constructor
    · simp only [List.length_map]
      exact solveEaSols_length solver matvec cc qs ωs η
    · intro u hu
      simp only [List.mem_map] at hu
      obtain ⟨row, hrow, rfl⟩ := hu
      simp only [List.length_map]
      exact solveEaSols_mem_length solver matvec cc qs ωs η row hrow

/-- Claim C8: when exactly one bra index and one ket index are requested,
`solve_ip` and `solve_ea` return the collapsed 1-D array over the
frequency list; otherwise they return the full 3-D tensor with axes of
lengths `ps`, `qs` and `omega_list`. -/
theorem spec_c8 (self : greens_function) (solver : LinSolver)
    (matvec : Vec → Vec) (cc : CCData) (ps qs : List ℕ) (ωs : List ℂ)
    (η : ℝ) :
    ((ps.length = 1 ∧ qs.length = 1) →
      (∃ v, (greens_function.solve_ip self solver matvec cc ps qs ωs η).2
            = GFRet.one v ∧ v.length = ωs.length)
      ∧ (∃ v, (greens_function.solve_ea self solver matvec cc ps qs ωs η).2
            = GFRet.one v ∧ v.length = ωs.length))
    ∧ (¬(ps.length = 1 ∧ qs.length = 1) →
      (∃ t, (greens_function.solve_ip self solver matvec cc ps qs ωs η).2
            = GFRet.three t ∧ t.length = ps.length
          ∧ ∀ r ∈ t, r.length = qs.length ∧ ∀ u ∈ r, u.length = ωs.length)
      ∧ (∃ t, (greens_function.solve_ea self solver matvec cc ps qs ωs η).2
            = GFRet.three t ∧ t.length = ps.length
          ∧ ∀ r ∈ t, r.length = qs.length ∧ ∀ u ∈ r, u.length = ωs.length)) := by
  constructor
  · intro h
    constructor
    · have hdims := solveIpTensor_dims solver matvec cc ps qs ωs η
      have h1 : (solveIpTensor solver matvec cc ps qs ωs η).getD 0 []
          ∈ solveIpTensor solver matvec cc ps qs ωs η :=
        getD_mem_of_lt _ 0 [] (by rw [hdims.1, h.1]; norm_num)
      have h2 := hdims.2 _ h1
      have h3 : ((solveIpTensor solver matvec cc ps qs ωs η).getD 0
            []).getD 0 []
          ∈ (solveIpTensor solver matvec cc ps qs ωs η).getD 0 [] :=
        getD_mem_of_lt _ 0 [] (by rw [h2.1, h.2]; norm_num)
      refine ⟨((solveIpTensor solver matvec cc ps qs ωs η).getD 0 []).getD
          0 [], ?_, h2.2 _ h3⟩
      simp only [greens_function.solve_ip, if_pos h]
    · have hdims := solveEaTensor_dims solver matvec cc ps qs ωs η
      have h1 : (solveEaTensor solver matvec cc ps qs ωs η).getD 0 []
          ∈ solveEaTensor solver matvec cc ps qs ωs η :=
        getD_mem_of_lt _ 0 [] (by rw [hdims.1, h.1]; norm_num)
      have h2 := hdims.2 _ h1
      have h3 : ((solveEaTensor solver matvec cc ps qs ωs η).getD 0
            []).getD 0 []
          ∈ (solveEaTensor solver matvec cc ps qs ωs η).getD 0 [] :=
        getD_mem_of_lt _ 0 [] (by rw [h2.1, h.2]; norm_num)
      refine ⟨((solveEaTensor solver matvec cc ps qs ωs η).getD 0 []).getD
          0 [], ?_, h2.2 _ h3⟩
      simp only [greens_function.solve_ea, if_pos h]
  · intro h
    constructor
    · have hdims := solveIpTensor_dims solver matvec cc ps qs ωs η
      refine ⟨solveIpTensor solver matvec cc ps qs ωs η, ?_, hdims.1,
        hdims.2⟩
      simp only [greens_function.solve_ip, if_neg h]
    · have hdims := solveEaTensor_dims solver matvec cc ps qs ωs η
      refine ⟨solveEaTensor solver matvec cc ps qs ωs η, ?_, hdims.1,
        hdims.2⟩
      simp only [greens_function.solve_ea, if_neg h]

/-- Witness for C8 on a concrete single-bra, single-ket instance. -/
theorem spec_c8_witness :
    (([0] : List ℕ).length = 1 ∧ ([0] : List ℕ).length = 1)
    ∧ (∃ v, (greens_function.solve_ip ⟨0⟩ solverC mvC ccC [0] [0]
          [(2 : ℂ)] 0).2 = GFRet.one v ∧ v.length = [(2 : ℂ)].length) :=
  ⟨⟨rfl, rfl⟩,
   ((spec_c8 ⟨0⟩ solverC mvC ccC [0] [0] [(2 : ℂ)] 0).1 ⟨rfl, rfl⟩).1⟩

/-- Claim C9: calling any assembler operation twice with identical inputs
produces identical outputs, and no call mutates the object — each method
returns the `greens_function` object unchanged (its only attribute is
`verbose`, read at most for logging), and rebuilds its initial guess and
operator intermediates inside its own body.  The second call is performed
on the object returned by the first, so any mutation would be visible. -/
theorem spec_c9 (self : greens_function) (solver : LinSolver)
    (matvecIp matvecEa matvec : Vec → Vec) (ode : OdeSolver) (cc : CCData)
    (ps qs : List ℕ) (ωs : List ℂ) (η : ℝ) (times : List ℝ)
    (mo_coeff : ℕ → ℕ → ℂ) (nmo : ℕ) (re_im : String) (tol : ℝ) :
    ((greens_function.solve_ip
        (greens_function.solve_ip self solver matvec cc ps qs ωs η).1
        solver matvec cc ps qs ωs η).2
      = (greens_function.solve_ip self solver matvec cc ps qs ωs η).2
      ∧ (greens_function.solve_ip self solver matvec cc ps qs ωs η).1 = self)
    ∧ ((greens_function.solve_ea
        (greens_function.solve_ea self solver matvec cc ps qs ωs η).1
        solver matvec cc ps qs ωs η).2
      = (greens_function.solve_ea self solver matvec cc ps qs ωs η).2
      ∧ (greens_function.solve_ea self solver matvec cc ps qs ωs η).1 = self)
    ∧ ((greens_function.solve_ip_ao
        (greens_function.solve_ip_ao self solver matvec cc ps ωs mo_coeff
          nmo η).1 solver matvec cc ps ωs mo_coeff nmo η).2
      = (greens_function.solve_ip_ao self solver matvec cc ps ωs mo_coeff
          nmo η).2
      ∧ (greens_function.solve_ip_ao self solver matvec cc ps ωs mo_coeff
          nmo η).1 = self)
    ∧ ((greens_function.solve_ea_ao
        (greens_function.solve_ea_ao self solver matvec cc ps ωs mo_coeff
          nmo η).1 solver matvec cc ps ωs mo_coeff nmo η).2
      = (greens_function.solve_ea_ao self solver matvec cc ps ωs mo_coeff
          nmo η).2
      ∧ (greens_function.solve_ea_ao self solver matvec cc ps ωs mo_coeff
          nmo η).1 = self)
    ∧ ((greens_function.td_ip
        (greens_function.td_ip self ode matvec cc ps qs times re_im tol).1
        ode matvec cc ps qs times re_im tol).2
      = (greens_function.td_ip self ode matvec cc ps qs times re_im tol).2
      ∧ (greens_function.td_ip self ode matvec cc ps qs times re_im
          tol).1 = self)
    ∧ ((greens_function.td_ea
        (greens_function.td_ea self ode matvec cc ps qs times re_im tol).1
        ode matvec cc ps qs times re_im tol).2
      = (greens_function.td_ea self ode matvec cc ps qs times re_im tol).2
      ∧ (greens_function.td_ea self ode matvec cc ps qs times re_im
          tol).1 = self)
    ∧ ((greens_function.td_ip_ao
        (greens_function.td_ip_ao self ode matvec cc ps times mo_coeff nmo
          re_im tol).1 ode matvec cc ps times mo_coeff nmo re_im tol).2
      = (greens_function.td_ip_ao self ode matvec cc ps times mo_coeff nmo
          re_im tol).2
      ∧ (greens_function.td_ip_ao self ode matvec cc ps times mo_coeff nmo
          re_im tol).1 = self)
    ∧ ((greens_function.td_ea_ao
        (greens_function.td_ea_ao self ode matvec cc ps times mo_coeff nmo
          re_im tol).1 ode matvec cc ps times mo_coeff nmo re_im tol).2
      = (greens_function.td_ea_ao self ode matvec cc ps times mo_coeff nmo
          re_im tol).2
      ∧ (greens_function.td_ea_ao self ode matvec cc ps times mo_coeff nmo
          re_im tol).1 = self)
    ∧ ((greens_function.solve_gf
        (greens_function.solve_gf self solver matvecIp matvecEa cc ps qs
          ωs η).1 solver matvecIp matvecEa cc ps qs ωs η).2
      = (greens_function.solve_gf self solver matvecIp matvecEa cc ps qs
          ωs η).2
      ∧ (greens_function.solve_gf self solver matvecIp matvecEa cc ps qs
          ωs η).1 = self) :=
  ⟨⟨rfl, rfl⟩, ⟨rfl, rfl⟩, ⟨rfl, rfl⟩, ⟨rfl, rfl⟩, ⟨rfl, rfl⟩,
   ⟨rfl, rfl⟩, ⟨rfl, rfl⟩, ⟨rfl, rfl⟩, ⟨rfl, rfl⟩⟩

/-- Claim C1 (amended): every frequency-domain Green's function entry is
`sign * dot(e_vector, x)` with `sign = -1` (IP) and `+1` (EA), but the
axis convention differs by sector: in the EA drivers (MO and AO) the
tensor is indexed `(bra, ket, frequency)` — the `e`-vector (bra) index is
the FIRST axis — while in the IP drivers (MO and AO) it is indexed
`(ket, bra, frequency)` — the `e`-vector (bra) index is the SECOND axis
and the first axis carries the ket whose response was solved. -/
theorem spec_c1 (solver : LinSolver) (matvec : Vec → Vec) (cc : CCData)
    (ps qs : List ℕ) (ωs : List ℂ) (mo_coeff : ℕ → ℕ → ℂ) (nmo : ℕ)
    (η : ℝ) (i j k : ℕ) :
    (i < ps.length → j < qs.length → k < ωs.length →
      (((solveIpTensor solver matvec cc ps qs ωs η).getD i []).getD j
          []).getD k 0
        = -arrDot (greens_e_vector_ip_rhf cc (qs.getD j 0))
            (((solveIpSols solver matvec cc ps ωs η).getD i []).getD k [])
      ∧ (((solveEaTensor solver matvec cc ps qs ωs η).getD i []).getD j
          []).getD k 0
        = arrDot (greens_e_vector_ea_rhf cc (ps.getD i 0))
            (((solveEaSols solver matvec cc qs ωs η).getD j []).getD k []))
    ∧ (i < ps.length → j < ps.length → k < ωs.length →
      (((solveIpAoTensor solver matvec cc ps ωs mo_coeff nmo η).getD i
          []).getD j []).getD k 0
        = -arrDot
            (aoVec nmo (ip_shape cc) mo_coeff (ps.getD j 0)
              (greens_e_vector_ip_rhf cc))
            (((solveIpAoSols solver matvec cc ps ωs mo_coeff nmo η).getD i
                []).getD k [])
      ∧ (((solveEaAoTensor solver matvec cc ps ωs mo_coeff nmo η).getD i
          []).getD j []).getD k 0
        = arrDot
            (aoVec nmo (ea_shape cc) mo_coeff (ps.getD i 0)
              (greens_e_vector_ea_rhf cc))
            (((solveEaAoSols solver matvec cc ps ωs mo_coeff nmo η).getD j
                []).getD k [])) :=
  ⟨fun hi hj hk =>
    ⟨solveIpTensor_entry solver matvec cc ps qs ωs η i j k hi hj hk,
     solveEaTensor_entry solver matvec cc ps qs ωs η i j k hi hj hk⟩,
   fun hi hj hk =>
    ⟨solveIpAoTensor_entry solver matvec cc ps ωs mo_coeff nmo η i j k
       hi hj hk,
     solveEaAoTensor_entry solver matvec cc ps ωs mo_coeff nmo η i j k
       hi hj hk⟩⟩

/-- Witness for C1 (amended) on a concrete one-orbital instance. -/
theorem spec_c1_witness :
    0 < ([0] : List ℕ).length ∧ 0 < [(2 : ℂ)].length
    ∧ ((((solveIpTensor solverC mvC ccC [0] [0] [(2 : ℂ)] 0).getD 0
          []).getD 0 []).getD 0 0
        = -arrDot (greens_e_vector_ip_rhf ccC (([0] : List ℕ).getD 0 0))
            (((solveIpSols solverC mvC ccC [0] [(2 : ℂ)] 0).getD 0
                []).getD 0 [])
      ∧ (((solveEaTensor solverC mvC ccC [0] [0] [(2 : ℂ)] 0).getD 0
          []).getD 0 []).getD 0 0
        = arrDot (greens_e_vector_ea_rhf ccC (([0] : List ℕ).getD 0 0))
            (((solveEaSols solverC mvC ccC [0] [(2 : ℂ)] 0).getD 0
                []).getD 0 [])) :=
  ⟨by decide, by decide,
   (spec_c1 solverC mvC ccC [0] [0] [(2 : ℂ)] (fun _ _ => 1) 2 0 0 0 0).1
     (by decide) (by decide) (by decide)⟩

/-- Counterexample to C1 as stated: on a concrete two-orbital IP solve
with `ps = qs = [0, 1]`, the entry at position `[0][1][0]` does NOT equal
`-dot(e_vector of the axis-0 orbital, x solved for the axis-1 orbital)` —
the code computes `-dot(e_vector[1], x_0) = 3` there, whereas the claimed
`(bra, ket, frequency)` indexing demands `-dot(e_vector[0], x_1) = 15`. -/
theorem range_one_eq : List.range 1 = [0] := rfl

theorem spec_c1_counterexample :
    ¬ ((((solveIpTensor solverC mvC ccC [0, 1] [0, 1] [(2 : ℂ)] 0).getD 0
          []).getD 1 []).getD 0 0
        = -arrDot (greens_e_vector_ip_rhf ccC 0)
            (((solveIpSols solverC mvC ccC [0, 1] [(2 : ℂ)] 0).getD 1
                []).getD 0 [])) := by
  have hE := solveIpTensor_entry solverC mvC ccC [0, 1] [0, 1] [(2 : ℂ)] 0
    0 1 0 (by decide) (by decide) (by decide)
  rw [show (([0, 1] : List ℕ).getD 1 0) = 1 from rfl] at hE
  rw [hE]
  have hb0 : greens_b_vector_ip_rhf ccC 0 = [1, 0] := by
    simp [greens_b_vector_ip_rhf, greens_b_amplitudes_ip_rhf,
      amplitudes_to_vector_ip, ccC, range_one_eq, Function.update_apply]
  have hb1 : greens_b_vector_ip_rhf ccC 1 = [0, 5] := by
    simp [greens_b_vector_ip_rhf, greens_b_amplitudes_ip_rhf,
      amplitudes_to_vector_ip, ccC, range_one_eq, Function.update_apply]
  have he0 : greens_e_vector_ip_rhf ccC 0 = [-1, -3] := by
    simp [greens_e_vector_ip_rhf, greens_e_amplitudes_ip_rhf,
      amplitudes_to_vector_ip, ccC, range_one_eq, Function.update_apply,
      Finset.sum_range_one]
    norm_num
  have he1 : greens_e_vector_ip_rhf ccC 1 = [-3, 0] := by
    simp [greens_e_vector_ip_rhf, greens_e_amplitudes_ip_rhf,
      amplitudes_to_vector_ip, ccC, range_one_eq, Function.update_apply,
      Finset.sum_range_one]
  have hsols : solveIpSols solverC mvC ccC [0, 1] [(2 : ℂ)] 0
      = [[greens_b_vector_ip_rhf ccC 0], [greens_b_vector_ip_rhf ccC 1]] := by
    simp [solveIpSols, ketSweep, freqSweep, solverC]
  rw [hsols]
  simp only [List.getD_cons_zero, List.getD_cons_succ]
  rw [hb0, hb1, he0, he1]
  simp only [arrDot, List.zipWith_cons_cons, List.zipWith_nil_right,
    List.sum_cons, List.sum_nil]
  intro hcontra
  have : (3 : ℂ) = 15 := by
    calc (3 : ℂ) = -(-3 * 1 + (0 * 0 + 0)) := by norm_num
    _ = -(-1 * 0 + (-3 * 5 + 0)) := hcontra
    _ = 15 := by norm_num
  norm_num at this

/-- Counterexample to C4 as stated: the recognized mode literals are
`"re"` and `"im"`, not `"real"` and `"imaginary"` — calling `td_ip` with
mode `"imaginary"` raises `RuntimeError` (modelled as `none`) instead of
producing a real-valued array with factor `+1`. -/
theorem spec_c4_counterexample :
    (greens_function.td_ip ⟨0⟩ odeC mvC ccC [0] [0] [1] "imaginary" 1).2
      = none := by
  simp [greens_function.td_ip]

/-- Claim C4 (amended): the mode literals are `"re"` and `"im"` (the
`re_im` parameter).  Mode `"im"` selects propagation factor `+1` (IP) /
`-1` (EA) and a real (`float64`) output array in `td_ip`, `td_ip_ao` and
`td_ea_ao`, but `td_ea` allocates its output array with `dtype=complex`
unconditionally, so its imaginary-mode output array is complex-typed.
Mode `"re"` selects a complex output array with factor `+i` (IP) / `-i`
(EA) in all four drivers.  Any other mode string raises `RuntimeError`
before any computation. -/
theorem spec_c4 (self : greens_function) (ode : OdeSolver)
    (matvec : Vec → Vec) (cc : CCData) (ps qs : List ℕ) (times : List ℝ)
    (mo_coeff : ℕ → ℕ → ℂ) (nmo : ℕ) (tol : ℝ) :
    (greens_function.td_ip self ode matvec cc ps qs times "im" tol).2
        = some (NPDtype.float64, tdIpTensor ode matvec cc ps qs times tol 1)
    ∧ (greens_function.td_ip self ode matvec cc ps qs times "re" tol).2
        = some (NPDtype.complex128,
            tdIpTensor ode matvec cc ps qs times tol Complex.I)
    ∧ (greens_function.td_ea self ode matvec cc ps qs times "im" tol).2
        = some (NPDtype.complex128,
            tdEaTensor ode matvec cc ps qs times tol (-1))
    ∧ (greens_function.td_ea self ode matvec cc ps qs times "re" tol).2
        = some (NPDtype.complex128,
            tdEaTensor ode matvec cc ps qs times tol (-Complex.I))
    ∧ (greens_function.td_ip_ao self ode matvec cc ps times mo_coeff nmo
          "im" tol).2
        = some (NPDtype.float64,
            tdIpAoTensor ode matvec cc ps times mo_coeff nmo tol 1)
    ∧ (greens_function.td_ip_ao self ode matvec cc ps times mo_coeff nmo
          "re" tol).2
        = some (NPDtype.complex128,
            tdIpAoTensor ode matvec cc ps times mo_coeff nmo tol Complex.I)
    ∧ (greens_function.td_ea_ao self ode matvec cc ps times mo_coeff nmo
          "im" tol).2
        = some (NPDtype.float64,
            tdEaAoTensor ode matvec cc ps times mo_coeff nmo tol (-1))
    ∧ (greens_function.td_ea_ao self ode matvec cc ps times mo_coeff nmo
          "re" tol).2
        = some (NPDtype.complex128,
            tdEaAoTensor ode matvec cc ps times mo_coeff nmo tol
              (-Complex.I))
    ∧ (∀ mode : String, mode ≠ "re" → mode ≠ "im" →
        (greens_function.td_ip self ode matvec cc ps qs times mode tol).2
            = none
        ∧ (greens_function.td_ea self ode matvec cc ps qs times mode
            tol).2 = none
        ∧ (greens_function.td_ip_ao self ode matvec cc ps times mo_coeff
            nmo mode tol).2 = none
        ∧ (greens_function.td_ea_ao self ode matvec cc ps times mo_coeff
            nmo mode tol).2 = none) := by
  refine ⟨rfl, ?_, rfl, ?_, rfl, ?_, rfl, ?_, ?_⟩
  · simp [greens_function.td_ip]
  · simp [greens_function.td_ea]
  · simp [greens_function.td_ip_ao]
  · simp [greens_function.td_ea_ao]
  · intro mode h1 h2
    refine ⟨?_, ?_, ?_, ?_⟩
    · simp [greens_function.td_ip, h1, h2]
    · simp [greens_function.td_ea, h1, h2]
    · simp [greens_function.td_ip_ao, h1, h2]
    · simp [greens_function.td_ea_ao, h1, h2]

/-- Witness for C4 (amended): an unrecognized mode string on concrete
inputs raises. -/
theorem spec_c4_witness :
    ("xx" : String) ≠ "re" ∧ ("xx" : String) ≠ "im"
    ∧ (greens_function.td_ip ⟨0⟩ odeC mvC ccC [0] [0] [1] "xx" 1).2
        = none :=
  ⟨by decide, by decide,
   ((spec_c4 ⟨0⟩ odeC mvC ccC [0] [0] [1] (fun _ _ => 1) 2
       1).2.2.2.2.2.2.2.2 "xx" (by decide) (by decide)).1⟩
